import Mathlib

/-!
Verification of the linkedin-job-api core against its natural-language
specification.  The Python source is shallowly embedded: pure logic is
translated to Lean functions, the event loop is replaced by explicit
sequencing (the orchestration is deterministic up to completion order,
which never affects results), and HTTP transport is abstracted as a
function argument supplying page/outcome data.
-/

/-! ## Constants (src/linkedin/linkedin_client.py) -/

def LINKEDIN_PAGE_SIZE : Nat := 10

def LINKEDIN_JOB_QUERY_LIMIT : Nat := 1000

/-! ## Fetch orchestrator: `LinkedInClient.fetch_jobs`

`pages` abstracts `_fetch_jobs_page filter`, mapping a start offset to the
list of job summaries on that page.  The result is the pair of
(page offsets requested, outcome): a validation error issues no request,
so the offset trace is empty on the error path, mirroring that the
`ValueError` in the Python code is raised before any task is created.
The Python signature is `fetch_jobs(self, filter, offset=0,
limit: Optional[int] = LINKEDIN_PAGE_SIZE)`; `limit` here is the actual
argument value, and `fetchJobsOmitted` is the call with `limit` omitted,
i.e. at its declared default. -/

def fetchJobs {α : Type} (pages : Int → List α) (offset : Int) (limit : Option Int) :
    List Int × Except String (List α) :=
  let lim : Int := limit.getD ((LINKEDIN_JOB_QUERY_LIMIT : Int) - offset)
  if offset < 0 ∨ lim < 0 then
    ([], .error "Offset and limit must be non-negative")
  else if (LINKEDIN_JOB_QUERY_LIMIT : Int) < offset + lim then
    ([], .error "LinkedIn only allows fetching up to 1000 jobs")
  else
    let totalPages : Nat := (lim.toNat + LINKEDIN_PAGE_SIZE - 1) / LINKEDIN_PAGE_SIZE
    let offsets : List Int :=
      (List.range totalPages).map (fun i : Nat => offset + (i : Int) * (LINKEDIN_PAGE_SIZE : Int))
    (offsets, .ok (((offsets.map pages).flatten).take lim.toNat))

/-- Embeds `fetch_jobs` invoked with the `limit` argument omitted: the declared
Python default is `LINKEDIN_PAGE_SIZE`. -/
def fetchJobsOmitted {α : Type} (pages : Int → List α) (offset : Int) :
    List Int × Except String (List α) :=
  fetchJobs pages offset (some (LINKEDIN_PAGE_SIZE : Int))

/-! ## Batch detail fetch: `LinkedInClient.fetch_jobs_details`

`fetchDetail` abstracts `_fetch_job_details` (fetch plus parse of one id);
`asyncio.gather` yields the per-task results in task order and propagates
the failure of any task, which is the fail-fast sequencing below. -/

def fetchJobsDetails {ε δ : Type} (fetchDetail : String → Except ε δ) :
    List String → Except ε (List δ)
  | [] => .ok []
  | id :: ids =>
    match fetchDetail id with
    | .error e => .error e
    | .ok d =>
      match fetchJobsDetails fetchDetail ids with
      | .error e => .error e
      | .ok ds => .ok (d :: ds)

/-! ## Resilient request executor (src/linkedin/resilient_async_session.py)

One attempt of `super().request` followed by `raise_for_status` is
abstracted as a `TransportOutcome`: either a success (2xx-class response
returned as-is) or a `RequestsError` carrying an optional response status
(`none` models a transport failure with no response).  `outcomes i` is the
outcome attempt number `i` would observe.  The trace records the number of
attempts made, the backoff sleeps consumed, and the final result (the
propagated error carries the optional status of the raising attempt). -/

def RETRY_COUNT : Nat := 3

inductive TransportOutcome where
  | success (status : Nat)
  | failure (response : Option Nat)
deriving DecidableEq

/-- Embeds `ResilientAsyncSession._should_retry_request`, with the error already
known to be a `RequestsError` holding `response` as its optional status. -/
def shouldRetryRequest (response : Option Nat) (retry : Nat) : Bool :=
  if RETRY_COUNT ≤ retry then false
  else
    match response with
    | none => true
    | some status => status == 429 || decide (500 ≤ status)

instance {ε α : Type} [DecidableEq ε] [DecidableEq α] : DecidableEq (Except ε α) := fun a b =>
  match a, b with
  | .error x, .error y =>
    if h : x = y then isTrue (by rw [h]) else isFalse (fun hh => by cases hh; exact h rfl)
  | .ok x, .ok y =>
    if h : x = y then isTrue (by rw [h]) else isFalse (fun hh => by cases hh; exact h rfl)
  | .error _, .ok _ => isFalse (fun hh => by cases hh)
  | .ok _, .error _ => isFalse (fun hh => by cases hh)

structure RequestTrace where
  attempts : Nat
  sleeps : List Nat
  result : Except (Option Nat) Nat
deriving DecidableEq

/-- The `for retry in range(RETRY_COUNT + 1)` loop of
`ResilientAsyncSession.request`, from iteration `retry` with `fuel`
iterations remaining.  `fuel = 0` is unreachable from `sessionRequest`
because iteration `RETRY_COUNT` never continues the loop. -/
def requestFrom (outcomes : Nat → TransportOutcome) : Nat → Nat → RequestTrace
  | _, 0 => ⟨0, [], .error none⟩
  | retry, fuel + 1 =>
    match outcomes retry with
    | .success status => ⟨1, [], .ok status⟩
    | .failure response =>
      if shouldRetryRequest response retry then
        let t := requestFrom outcomes (retry + 1) fuel
        ⟨t.attempts + 1, 2 ^ retry :: t.sleeps, t.result⟩
      else
        ⟨1, [], .error response⟩

/-- Embeds `ResilientAsyncSession.request`. -/
def sessionRequest (outcomes : Nat → TransportOutcome) : RequestTrace :=
  requestFrom outcomes 0 (RETRY_COUNT + 1)

/-- Retryable per the classification inside `_should_retry_request`,
ignoring the attempt budget: a `RequestsError` with no response, or one
whose response has status 429 or at least 500. -/
def retryableFailure : TransportOutcome → Bool
  | .success _ => false
  | .failure none => true
  | .failure (some status) => status == 429 || decide (500 ≤ status)

/-! ## Domain model (src/linkedin/models.py) -/

inductive EmploymentType where
  | FULL_TIME
  | PART_TIME
  | CONTRACT
  | TEMPORARY
  | INTERNSHIP
  | OTHER
deriving DecidableEq

def EmploymentType.value : EmploymentType → String
  | .FULL_TIME => "F"
  | .PART_TIME => "P"
  | .CONTRACT => "C"
  | .TEMPORARY => "T"
  | .INTERNSHIP => "I"
  | .OTHER => "O"

inductive ExperienceLevel where
  | INTERNSHIP
  | ENTRY_LEVEL
  | ASSOCIATE
  | MID_SENIOR_LEVEL
  | DIRECTOR
  | EXECUTIVE
deriving DecidableEq

def ExperienceLevel.value : ExperienceLevel → Nat
  | .INTERNSHIP => 1
  | .ENTRY_LEVEL => 2
  | .ASSOCIATE => 3
  | .MID_SENIOR_LEVEL => 4
  | .DIRECTOR => 5
  | .EXECUTIVE => 6

inductive WorkMode where
  | ON_SITE
  | REMOTE
  | HYBRID
deriving DecidableEq

def WorkMode.value : WorkMode → Nat
  | .ON_SITE => 1
  | .REMOTE => 2
  | .HYBRID => 3

/-- Embeds `JobFilter`.  `datetime.timedelta` is modelled by the integer that
`int(self.age.total_seconds())` produces, which is the only way the
duration is consumed. -/
structure JobFilter where
  title : Option String := none
  location : String := "United States"
  employment_types : Option (List EmploymentType) := none
  experience_levels : Option (List ExperienceLevel) := none
  work_modes : Option (List WorkMode) := none
  few_applicants : Option Bool := none
  ageSeconds : Option Int := none

/-- Embeds `JobFilter.to_linkedin_params`.  A Python `dict` built by successive
inserts of distinct keys is modelled by the association list in insertion
order. -/
def toLinkedinParams (f : JobFilter) : List (String × String) :=
  (f.title.elim [] (fun t => [("keywords", t)])) ++
  [("location", f.location)] ++
  (f.employment_types.elim []
    (fun l => [("f_JT", String.intercalate "," (l.map EmploymentType.value))])) ++
  (f.experience_levels.elim []
    (fun l => [("f_E", String.intercalate "," (l.map (fun x => toString x.value)))])) ++
  (f.work_modes.elim []
    (fun l => [("f_WT", String.intercalate "," (l.map (fun x => toString x.value)))])) ++
  (if f.few_applicants = some true then [("f_JIYN", "true")] else []) ++
  (f.ageSeconds.elim [] (fun s => [("f_TPR", "r" ++ toString s)]))

/-! ## Job summary and its derived id (src/linkedin/models.py, `Job`) -/

structure CalDate where
  year : Int
  month : Nat
  day : Nat
deriving DecidableEq

structure Job where
  url : String
  title : String
  location : String
  company_title : String
  company_url : String
  posted_at : CalDate
deriving DecidableEq

/-- A position right after a digit run qualifies for `(?:[/?]|$)`: the
next character is `/` or `?`, or the position is at the end of the
string, or just before a single trailing newline (Python `$`). -/
def followerOk : List Char → Bool
  | [] => true
  | c :: rest => c == '/' || c == '?' || (c == '\n' && rest.isEmpty)

/-- Embeds `re.search(r"-?(\d+)(?:[/?]|$)", url)` restricted to its capture
group.  `re.search` scans start positions left to right; at a digit the
greedy `\d+` takes the maximal digit run and backtracking cannot help
(any shorter run is followed by a digit), so a position matches exactly
when the maximal run from it satisfies `followerOk`; the optional leading
`-` never changes the captured digits. -/
def searchJobId : List Char → Option (List Char)
  | [] => none
  | c :: rest =>
    if c.isDigit then
      let run := List.takeWhile Char.isDigit (c :: rest)
      if followerOk (List.drop run.length (c :: rest)) then some run
      else searchJobId rest
    else searchJobId rest

/-- The `Job.id` property: the captured digits, or the `ValueError`
naming the url. -/
def Job.id (j : Job) : Except String String :=
  match searchJobId j.url.data with
  | some run => .ok (String.mk run)
  | none => .error ("Could not parse job ID from URL: " ++ j.url)

/-! ## Detail-page criteria extraction (src/linkedin/parsing.py)

The claims address the loop over parseable criteria entries, so the
document parser is abstracted away: an entry is the `(key, value)` pair of
trimmed texts of its subheader and text elements. -/

def STR_TO_EXPERIENCE_LEVEL_MAP : List (String × ExperienceLevel) :=
  [("Internship", .INTERNSHIP), ("Entry level", .ENTRY_LEVEL), ("Associate", .ASSOCIATE),
   ("Mid-Senior level", .MID_SENIOR_LEVEL), ("Director", .DIRECTOR), ("Executive", .EXECUTIVE)]

def STR_TO_EMPLOYMENT_TYPE_MAP : List (String × EmploymentType) :=
  [("Full-time", .FULL_TIME), ("Part-time", .PART_TIME), ("Contract", .CONTRACT),
   ("Temporary", .TEMPORARY), ("Internship", .INTERNSHIP), ("Other", .OTHER)]

/-- One iteration of the criteria loop in `parse_job_details`: each of the
two `if` statements overwrites its accumulator component with the map
lookup (`dict.get`, `none` when unmapped). -/
def criteriaStep (acc : Option EmploymentType × Option ExperienceLevel)
    (entry : String × String) : Option EmploymentType × Option ExperienceLevel :=
  let acc1 := if entry.1 = "Employment type"
    then (STR_TO_EMPLOYMENT_TYPE_MAP.lookup entry.2, acc.2) else acc
  if entry.1 = "Seniority level"
    then (acc1.1, STR_TO_EXPERIENCE_LEVEL_MAP.lookup entry.2) else acc1

def criteriaFold (entries : List (String × String)) :
    Option EmploymentType × Option ExperienceLevel :=
  entries.foldl criteriaStep (none, none)

/-- The criteria portion of `parse_job_details`: after the loop,
`employment_type is None` raises; otherwise both fields are returned. -/
def parseDetailCriteria (entries : List (String × String)) :
    Except String (EmploymentType × Option ExperienceLevel) :=
  match criteriaFold entries with
  | (none, _) => .error "Could not parse employment type"
  | (some et, el) => .ok (et, el)

/-- The value determined by the last `"Employment type"` entry in
document order, if any. -/
def lastEmploymentType (entries : List (String × String)) : Option EmploymentType :=
  ((entries.filter (fun e => e.1 == "Employment type")).getLast?).bind
    (fun e => STR_TO_EMPLOYMENT_TYPE_MAP.lookup e.2)

/-- The value determined by the last `"Seniority level"` entry in
document order, if any. -/
def lastExperienceLevel (entries : List (String × String)) : Option ExperienceLevel :=
  ((entries.filter (fun e => e.1 == "Seniority level")).getLast?).bind
    (fun e => STR_TO_EXPERIENCE_LEVEL_MAP.lookup e.2)

/-! ## Theorems -/

lemma flatten_length_of_const {α : Type} {L : List (List α)} {n : Nat}
    (h : ∀ x ∈ L, x.length = n) : L.flatten.length = n * L.length := by
  induction L with
  | nil => simp
  | cons x L ih =>
    simp only [List.flatten_cons, List.length_append, List.length_cons,
      h x (List.mem_cons_self x L), ih (fun y hy => h y (List.mem_cons_of_mem x hy))]
    ring

/-- C1: for valid `(offset, limit)`, `fetch_jobs` requests exactly
`ceil(limit / 10)` pages at offsets `offset, offset + 10, ...`, returns
the first `limit` items of the offset-ordered concatenation of the page
results, and returns exactly `limit` items when every page yields a full
`LINKEDIN_PAGE_SIZE` summaries. -/
theorem fetch_jobs_pagination {α : Type} (pages : Int → List α) (offset limit : Int)
    (h1 : 0 ≤ offset) (h2 : 0 ≤ limit) (h3 : offset + limit ≤ 1000) :
    (fetchJobs pages offset (some limit)).1 =
      (List.range ((limit.toNat + LINKEDIN_PAGE_SIZE - 1) / LINKEDIN_PAGE_SIZE)).map
        (fun i : Nat => offset + (i : Int) * (LINKEDIN_PAGE_SIZE : Int)) ∧
    (fetchJobs pages offset (some limit)).2 =
      .ok ((((fetchJobs pages offset (some limit)).1.map pages).flatten).take limit.toNat) ∧
    ((∀ o ∈ (fetchJobs pages offset (some limit)).1, (pages o).length = LINKEDIN_PAGE_SIZE) →
      ∃ jobs, (fetchJobs pages offset (some limit)).2 = .ok jobs ∧
        jobs.length = limit.toNat) := by
  have hv1 : ¬(offset < 0 ∨ limit < 0) := by omega
  have hv2 : ¬((LINKEDIN_JOB_QUERY_LIMIT : Int) < offset + limit) := by
    simp only [LINKEDIN_JOB_QUERY_LIMIT]; push_cast; omega
  unfold fetchJobs
  simp only [Option.getD_some]
  rw [if_neg hv1, if_neg hv2]
  refine ⟨rfl, rfl, fun h => ⟨_, rfl, ?_⟩⟩
  rw [List.length_take, flatten_length_of_const (n := LINKEDIN_PAGE_SIZE)
    (fun x hx => by
      obtain ⟨o, ho, rfl⟩ := List.mem_map.mp hx
      exact h o ho)]
  simp only [List.length_map, List.length_range, LINKEDIN_PAGE_SIZE]
  omega

/-- Witness for C1 at `offset = 0`, `limit = 25`: three pages at offsets
0, 10, 20 and exactly 25 returned items. -/
theorem fetch_jobs_pagination_witness :
    (fetchJobs (fun o => List.replicate 10 o) 0 (some 25)).1 = [0, 10, 20] ∧
    ∃ jobs, (fetchJobs (fun o => List.replicate 10 o) 0 (some 25)).2 = .ok jobs ∧
      jobs.length = 25 := by
  have h := fetch_jobs_pagination (fun o => List.replicate 10 o) 0 25
    (by norm_num) (by norm_num) (by norm_num)
  exact ⟨by rw [h.1]; decide, h.2.2 (fun o _ => by simp [LINKEDIN_PAGE_SIZE])⟩

/-- C2 counterexample: with `offset = 0`, a call that omits `limit`
requests one page and behaves as `limit = LINKEDIN_PAGE_SIZE`, not as
`limit = LINKEDIN_JOB_QUERY_LIMIT - offset`, which would request 100
pages. -/
theorem fetch_jobs_default_limit_cex :
    (fetchJobsOmitted (fun _ : Int => [()]) 0).1 = [0] ∧
    (fetchJobs (fun _ : Int => [()]) 0
      (some ((LINKEDIN_JOB_QUERY_LIMIT : Int) - 0))).1.length = 100 ∧
    (fetchJobsOmitted (fun _ : Int => [()]) 0).1 ≠
      (fetchJobs (fun _ : Int => [()]) 0
        (some ((LINKEDIN_JOB_QUERY_LIMIT : Int) - 0))).1 := by decide

/-- C2 amended: an omitted `limit` defaults to `LINKEDIN_PAGE_SIZE`; it is
the explicit argument `None` that makes `fetch_jobs` behave as if
`limit = LINKEDIN_JOB_QUERY_LIMIT - offset`. -/
theorem fetch_jobs_default_limit_amended {α : Type} (pages : Int → List α) (offset : Int) :
    fetchJobsOmitted pages offset = fetchJobs pages offset (some (LINKEDIN_PAGE_SIZE : Int)) ∧
    fetchJobs pages offset none =
      fetchJobs pages offset (some ((LINKEDIN_JOB_QUERY_LIMIT : Int) - offset)) :=
  ⟨rfl, rfl⟩

/-- C3: a violated precondition (`offset < 0`, `limit < 0`, or
`offset + limit > 1000`) makes `fetch_jobs` fail with the validation
error, and the trace of requested page offsets is empty: the error is
raised before any page task is created. -/
theorem fetch_jobs_invalid_args {α : Type} (pages : Int → List α) (offset limit : Int)
    (h : offset < 0 ∨ limit < 0 ∨ (LINKEDIN_JOB_QUERY_LIMIT : Int) < offset + limit) :
    (fetchJobs pages offset (some limit)).1 = [] ∧
    ∃ msg, (fetchJobs pages offset (some limit)).2 = .error msg := by
  unfold fetchJobs
  simp only [Option.getD_some]
  by_cases h1 : offset < 0 ∨ limit < 0
  · rw [if_pos h1]; exact ⟨rfl, _, rfl⟩
  · have h2 : (LINKEDIN_JOB_QUERY_LIMIT : Int) < offset + limit := by tauto
    rw [if_neg h1, if_pos h2]; exact ⟨rfl, _, rfl⟩

/-- Witness for C3 at `offset = -1`. -/
theorem fetch_jobs_invalid_args_witness :
    (fetchJobs (fun _ : Int => [()]) (-1) (some 5)).1 = [] ∧
    ∃ msg, (fetchJobs (fun _ : Int => [()]) (-1) (some 5)).2 = .error msg :=
  fetch_jobs_invalid_args _ _ _ (Or.inl (by norm_num))

lemma requestFrom_success (outcomes : Nat → TransportOutcome) (retry fuel : Nat) (s : Nat)
    (ho : outcomes retry = .success s) :
    requestFrom outcomes retry (fuel + 1) = ⟨1, [], .ok s⟩ := by
  simp [requestFrom, ho]

lemma requestFrom_stop (outcomes : Nat → TransportOutcome) (retry fuel : Nat) (resp : Option Nat)
    (ho : outcomes retry = .failure resp) (hs : shouldRetryRequest resp retry = false) :
    requestFrom outcomes retry (fuel + 1) = ⟨1, [], .error resp⟩ := by
  simp [requestFrom, ho, hs]

lemma requestFrom_step (outcomes : Nat → TransportOutcome) (retry fuel : Nat) (resp : Option Nat)
    (t : RequestTrace) (ho : outcomes retry = .failure resp)
    (hs : shouldRetryRequest resp retry = true)
    (ht : requestFrom outcomes (retry + 1) fuel = t) :
    requestFrom outcomes retry (fuel + 1) = ⟨t.attempts + 1, 2 ^ retry :: t.sleeps, t.result⟩ := by
  simp [requestFrom, ho, hs, ht]

lemma requestFrom_attempts_le (outcomes : Nat → TransportOutcome) :
    ∀ fuel retry, (requestFrom outcomes retry fuel).attempts ≤ fuel := by
  intro fuel
  induction fuel with
  | zero => intro retry; simp [requestFrom]
  | succ fuel ih =>
    intro retry
    rcases ho : outcomes retry with s | resp
    · rw [requestFrom_success outcomes retry fuel s ho]
      show 1 ≤ fuel + 1
      omega
    · rcases hs : shouldRetryRequest resp retry with _ | _
      · rw [requestFrom_stop outcomes retry fuel resp ho hs]
        show 1 ≤ fuel + 1
        omega
      · rw [requestFrom_step outcomes retry fuel resp _ ho hs rfl]
        show (requestFrom outcomes (retry + 1) fuel).attempts + 1 ≤ fuel + 1
        have := ih (retry + 1)
        omega

lemma requestFrom_attempts_pos (outcomes : Nat → TransportOutcome) (retry fuel : Nat)
    (h : 1 ≤ fuel) : 1 ≤ (requestFrom outcomes retry fuel).attempts := by
  obtain ⟨fuel, rfl⟩ : ∃ f, fuel = f + 1 := ⟨fuel - 1, by omega⟩
  rcases ho : outcomes retry with s | resp
  · rw [requestFrom_success outcomes retry fuel s ho]
  · rcases hs : shouldRetryRequest resp retry with _ | _
    · rw [requestFrom_stop outcomes retry fuel resp ho hs]
    · rw [requestFrom_step outcomes retry fuel resp _ ho hs rfl]
      show 1 ≤ (requestFrom outcomes (retry + 1) fuel).attempts + 1
      omega

lemma shouldRetryRequest_eq (resp : Option Nat) (retry : Nat) :
    shouldRetryRequest resp retry =
      (decide (retry < RETRY_COUNT) && retryableFailure (.failure resp)) := by
  rcases resp with _ | s <;> by_cases h : RETRY_COUNT ≤ retry <;>
    simp [shouldRetryRequest, retryableFailure, h, Nat.lt_of_not_le, Nat.not_lt_of_le]

/-- C4: the executor makes at most `RETRY_COUNT + 1 = 4` attempts; a
failure is retried exactly when it is retryable (no response, status 429,
or status at least 500) and attempts remain; a success on the first
attempt returns immediately after a single attempt, a non-retryable
failure (e.g. a 404) on the first attempt is surfaced after exactly one
attempt, and when every attempt fails retryably the last attempt's error
is propagated after all 4 attempts. -/
theorem executor_retry_policy (outcomes : Nat → TransportOutcome) :
    (sessionRequest outcomes).attempts ≤ RETRY_COUNT + 1 ∧
    RETRY_COUNT + 1 = 4 ∧
    (∀ resp retry, shouldRetryRequest resp retry =
      (decide (retry < RETRY_COUNT) && retryableFailure (.failure resp))) ∧
    (∀ s, outcomes 0 = .success s → sessionRequest outcomes = ⟨1, [], .ok s⟩) ∧
    (∀ resp, outcomes 0 = .failure resp → retryableFailure (.failure resp) = false →
      sessionRequest outcomes = ⟨1, [], .error resp⟩) ∧
    ((∀ i, i ≤ RETRY_COUNT → retryableFailure (outcomes i) = true) →
      ∃ resp, outcomes RETRY_COUNT = .failure resp ∧
        (sessionRequest outcomes).attempts = RETRY_COUNT + 1 ∧
        (sessionRequest outcomes).result = .error resp) := by
  have hfail : ∀ i, retryableFailure (outcomes i) = true →
      ∃ r, outcomes i = .failure r ∧ retryableFailure (.failure r) = true := by
    intro i hi
    rcases ho : outcomes i with s | r
    · rw [ho] at hi; simp [retryableFailure] at hi
    · exact ⟨r, rfl, by rw [ho] at hi; exact hi⟩
  refine ⟨requestFrom_attempts_le outcomes (RETRY_COUNT + 1) 0, rfl, shouldRetryRequest_eq,
    fun s h => requestFrom_success outcomes 0 RETRY_COUNT s h,
    fun resp h hr => requestFrom_stop outcomes 0 RETRY_COUNT resp h
      (by rw [shouldRetryRequest_eq, hr, Bool.and_false]),
    fun h => ?_⟩
  obtain ⟨r0, e0, t0⟩ := hfail 0 (h 0 (by decide))
  obtain ⟨r1, e1, t1⟩ := hfail 1 (h 1 (by decide))
  obtain ⟨r2, e2, t2⟩ := hfail 2 (h 2 (by decide))
  obtain ⟨r3, e3, t3⟩ := hfail 3 (h 3 (by decide))
  have hs0 : shouldRetryRequest r0 0 = true := by rw [shouldRetryRequest_eq, t0]; rfl
  have hs1 : shouldRetryRequest r1 1 = true := by rw [shouldRetryRequest_eq, t1]; rfl
  have hs2 : shouldRetryRequest r2 2 = true := by rw [shouldRetryRequest_eq, t2]; rfl
  have hs3 : shouldRetryRequest r3 3 = false := by rw [shouldRetryRequest_eq]; rfl
  have h3 : requestFrom outcomes 3 1 = ⟨1, [], .error r3⟩ :=
    requestFrom_stop outcomes 3 0 r3 e3 hs3
  have h2 : requestFrom outcomes 2 2 = ⟨2, [4], .error r3⟩ :=
    requestFrom_step outcomes 2 1 r2 _ e2 hs2 h3
  have h1 : requestFrom outcomes 1 3 = ⟨3, [2, 4], .error r3⟩ :=
    requestFrom_step outcomes 1 2 r1 _ e1 hs1 h2
  have h0 : sessionRequest outcomes = ⟨4, [1, 2, 4], .error r3⟩ :=
    requestFrom_step outcomes 0 3 r0 _ e0 hs0 h1
  exact ⟨r3, e3, by rw [h0]; rfl, by rw [h0]⟩

/-- Witness for C4: with a 404 on the first attempt, exactly one attempt
is made and the error is surfaced immediately. -/
theorem executor_retry_policy_witness :
    sessionRequest (fun _ => .failure (some 404)) = ⟨1, [], .error (some 404)⟩ :=
  (executor_retry_policy (fun _ => .failure (some 404))).2.2.2.2.1 (some 404) rfl (by decide)

lemma requestFrom_sleeps (outcomes : Nat → TransportOutcome) :
    ∀ fuel retry, RETRY_COUNT + 1 ≤ retry + fuel →
      (requestFrom outcomes retry fuel).sleeps =
        (List.range ((requestFrom outcomes retry fuel).attempts - 1)).map
          (fun i => 2 ^ (retry + i)) := by
  intro fuel
  induction fuel with
  | zero => intro retry _; simp [requestFrom]
  | succ fuel ih =>
    intro retry hbound
    rcases ho : outcomes retry with s | resp
    · rw [requestFrom_success outcomes retry fuel s ho]; simp
    · rcases hs : shouldRetryRequest resp retry with _ | _
      · rw [requestFrom_stop outcomes retry fuel resp ho hs]; simp
      · rw [requestFrom_step outcomes retry fuel resp _ ho hs rfl]
        have hretry : retry < RETRY_COUNT := by
          by_contra hc
          rw [shouldRetryRequest_eq, decide_eq_false hc, Bool.false_and] at hs
          exact Bool.false_ne_true hs
        have hfuel : 1 ≤ fuel := by omega
        have hpos := requestFrom_attempts_pos outcomes (retry + 1) fuel hfuel
        obtain ⟨m, hm⟩ : ∃ m, (requestFrom outcomes (retry + 1) fuel).attempts = m + 1 :=
          ⟨(requestFrom outcomes (retry + 1) fuel).attempts - 1, by omega⟩
        have htail := ih (retry + 1) (by omega)
        show 2 ^ retry :: (requestFrom outcomes (retry + 1) fuel).sleeps =
          (List.range ((requestFrom outcomes (retry + 1) fuel).attempts + 1 - 1)).map
            (fun i => 2 ^ (retry + i))
        rw [htail, hm]
        simp only [Nat.add_sub_cancel, List.range_succ_eq_map, List.map_cons, List.map_map,
          List.cons.injEq]
        refine ⟨by rw [Nat.add_zero], ?_⟩
        apply List.map_congr_left
        intro i _
        simp only [Function.comp_apply]
        congr 1
        omega

/-- Failing attempt pattern of the spec's retry example: status 503 on
attempts 0 to 2, success on attempt 3. -/
def outcomes503 : Nat → TransportOutcome :=
  fun i => if i < 3 then .failure (some 503) else .success 200

/-- C5: between consecutive attempts the executor sleeps exactly
`2 ^ attempt` (0-indexed) time units, and it sleeps only when a further
attempt follows: the sleeps of any call are exactly `2^0 .. 2^(n-2)` for
`n` attempts.  In the spec's example (503 on attempts 0-2, success on
attempt 3) the call returns the success after sleeps `[1, 2, 4]` totalling
7 time units: the `2^3 = 8` delay is never consumed. -/
theorem executor_backoff :
    (∀ outcomes : Nat → TransportOutcome,
      (sessionRequest outcomes).sleeps =
        (List.range ((sessionRequest outcomes).attempts - 1)).map (fun i => 2 ^ i)) ∧
    sessionRequest outcomes503 = ⟨4, [1, 2, 4], .ok 200⟩ ∧
    (sessionRequest outcomes503).sleeps.sum = 1 + 2 + 4 := by
  refine ⟨fun outcomes => ?_, by decide, by decide⟩
  have h := requestFrom_sleeps outcomes (RETRY_COUNT + 1) 0 (by omega)
  simpa using h

/-- C6: when every id's fetch/parse succeeds, `fetch_jobs_details`
returns one detail record per id in input order (`result[i]` is the
parse of `ids[i]`); when one id fails while every other id would have
succeeded, the whole batch call fails with that id's error and no partial
result is returned. -/
theorem fetch_jobs_details_batch {ε δ : Type} (fetchDetail : String → Except ε δ)
    (ids : List String) :
    ((∀ id ∈ ids, ∃ d, fetchDetail id = .ok d) →
      ∃ ds, fetchJobsDetails fetchDetail ids = .ok ds ∧ ds.length = ids.length ∧
        ids.map fetchDetail = ds.map Except.ok) ∧
    (∀ badId e, badId ∈ ids → fetchDetail badId = .error e →
      (∀ j ∈ ids, j ≠ badId → ∃ d, fetchDetail j = .ok d) →
      fetchJobsDetails fetchDetail ids = .error e) := by
  constructor
  · intro h
    induction ids with
    | nil => exact ⟨[], rfl, rfl, rfl⟩
    | cons id ids ih =>
      obtain ⟨d, hd⟩ := h id (List.mem_cons_self id ids)
      obtain ⟨ds, hds, hlen, hmap⟩ := ih (fun j hj => h j (List.mem_cons_of_mem id hj))
      refine ⟨d :: ds, ?_, by simpa using hlen, ?_⟩
      · simp [fetchJobsDetails, hd, hds]
      · simp [hd, hmap]
  · intro badId e hmem herr hok
    induction ids with
    | nil => cases hmem
    | cons id ids ih =>
      by_cases hid : id = badId
      · subst hid
        simp [fetchJobsDetails, herr]
      · obtain ⟨d, hd⟩ := hok id (List.mem_cons_self id ids) hid
        have hmem2 : badId ∈ ids := by
          rcases List.mem_cons.mp hmem with h1 | h1
          · exact absurd h1.symm hid
          · exact h1
        have htail := ih hmem2 (fun j hj hne => hok j (List.mem_cons_of_mem id hj) hne)
        simp [fetchJobsDetails, hd, htail]

/-- Witness for C6: a two-id batch where the second id's parse fails
aborts the batch with that error although the first id succeeds, and the
one-id batch of the succeeding id returns its record in order. -/
theorem fetch_jobs_details_batch_witness :
    fetchJobsDetails (fun id => if id = "good" then .ok 7 else .error "boom") ["good"] =
      .ok [7] ∧
    fetchJobsDetails (fun id => if id = "good" then .ok 7 else .error "boom")
      ["good", "bad"] = .error "boom" := by
  have f := fun id : String => if id = "good" then (Except.ok 7 : Except String Nat)
    else .error "boom"
  constructor
  · obtain ⟨ds, hds, hlen, hmap⟩ :=
      (fetch_jobs_details_batch
        (fun id => if id = "good" then (Except.ok 7 : Except String Nat) else .error "boom")
        ["good"]).1
        (by intro id hid; simp at hid; subst hid; exact ⟨7, rfl⟩)
    rw [hds]
    rcases ds with _ | ⟨d, ds⟩
    · cases hlen
    · rcases ds with _ | ⟨d2, ds⟩
      · simp at hmap
        simp [hmap]
      · simp at hlen
  · exact (fetch_jobs_details_batch
      (fun id => if id = "good" then (Except.ok 7 : Except String Nat) else .error "boom")
      ["good", "bad"]).2 "bad" "boom" (by simp) (by simp)
      (by intro j hj hne; simp at hj; rcases hj with rfl | rfl
          · exact ⟨7, by simp⟩
          · exact absurd rfl hne)

lemma mem_elim_single {β : Type} (o : Option β) (g : β → String × String) (p : String × String) :
    (p ∈ o.elim ([] : List (String × String)) (fun x => [g x])) ↔ ∃ x, o = some x ∧ p = g x := by
  cases o <;> simp [Option.elim]

lemma mem_ite_single (c : Prop) [Decidable c] (q p : String × String) :
    (p ∈ if c then [q] else ([] : List (String × String))) ↔ c ∧ p = q := by
  split <;> simp_all

lemma keys_elim_sub {β : Type} (o : Option β) (g : β → String × String) (k : String)
    (hk : ∀ x, (g x).1 = k) :
    List.Sublist ((o.elim ([] : List (String × String)) (fun x => [g x])).map Prod.fst) [k] := by
  cases o with
  | none => simp [Option.elim]
  | some x => simp [Option.elim, hk]

lemma keys_ite_sub (c : Prop) [Decidable c] (q : String × String) (k : String)
    (hk : q.1 = k) :
    List.Sublist ((if c then [q] else ([] : List (String × String))).map Prod.fst) [k] := by
  split
  · simp [hk]
  · simp

/-- C7 counterexample: the filter whose few-applicants boolean is set to
`False` serializes with no `f_JIYN` key at all (the code tests
`is True`), so "one parameter key per present optional field" fails. -/
theorem filter_params_cex :
    ¬((("f_JIYN", "true") ∈ toLinkedinParams { few_applicants := some false }) ↔
      ({ few_applicants := some false : JobFilter }).few_applicants.isSome = true) := by
  decide

/-- C7 amended: serialization produces pairwise-distinct keys, one per
present optional field, except that `f_JIYN` is emitted exactly when the
few-applicants boolean is set to `True` (a field set to `False` yields no
key); `keywords` mirrors the title, `location` is always present, and
`f_JT`/`f_E`/`f_WT`/`f_TPR` carry the comma-joined codes and the
`r<seconds>` window; no other key ever appears. -/
theorem filter_params_amended (f : JobFilter) :
    ((toLinkedinParams f).map Prod.fst).Nodup ∧
    (∀ v, ("keywords", v) ∈ toLinkedinParams f ↔ f.title = some v) ∧
    ("location", f.location) ∈ toLinkedinParams f ∧
    (∀ v, ("f_JT", v) ∈ toLinkedinParams f ↔
      ∃ l, f.employment_types = some l ∧
        v = String.intercalate "," (l.map EmploymentType.value)) ∧
    (∀ v, ("f_E", v) ∈ toLinkedinParams f ↔
      ∃ l, f.experience_levels = some l ∧
        v = String.intercalate "," (l.map (fun x => toString x.value))) ∧
    (∀ v, ("f_WT", v) ∈ toLinkedinParams f ↔
      ∃ l, f.work_modes = some l ∧
        v = String.intercalate "," (l.map (fun x => toString x.value))) ∧
    (∀ v, ("f_JIYN", v) ∈ toLinkedinParams f ↔
      (f.few_applicants = some true ∧ v = "true")) ∧
    (∀ v, ("f_TPR", v) ∈ toLinkedinParams f ↔
      ∃ s, f.ageSeconds = some s ∧ v = "r" ++ toString s) ∧
    (∀ kv ∈ toLinkedinParams f, kv.1 = "keywords" ∨ kv.1 = "location" ∨ kv.1 = "f_JT" ∨
      kv.1 = "f_E" ∨ kv.1 = "f_WT" ∨ kv.1 = "f_JIYN" ∨ kv.1 = "f_TPR") := by
  refine ⟨?_, ?_, ?_, ?_, ?_, ?_, ?_, ?_, ?_⟩
  · have hkeys : List.Sublist ((toLinkedinParams f).map Prod.fst)
        (["keywords"] ++ ["location"] ++ ["f_JT"] ++ ["f_E"] ++ ["f_WT"] ++ ["f_JIYN"] ++
          ["f_TPR"]) := by
      simp only [toLinkedinParams, List.map_append]
      refine List.Sublist.append (List.Sublist.append (List.Sublist.append
        (List.Sublist.append (List.Sublist.append (List.Sublist.append ?_ ?_) ?_) ?_) ?_) ?_) ?_
      · exact keys_elim_sub f.title (fun t => ("keywords", t)) "keywords" (fun _ => rfl)
      · exact List.Sublist.refl ["location"]
      · exact keys_elim_sub f.employment_types
          (fun l => ("f_JT", String.intercalate "," (l.map EmploymentType.value))) "f_JT"
          (fun _ => rfl)
      · exact keys_elim_sub f.experience_levels
          (fun l => ("f_E", String.intercalate "," (l.map (fun x => toString x.value)))) "f_E"
          (fun _ => rfl)
      · exact keys_elim_sub f.work_modes
          (fun l => ("f_WT", String.intercalate "," (l.map (fun x => toString x.value)))) "f_WT"
          (fun _ => rfl)
      · exact keys_ite_sub (f.few_applicants = some true) ("f_JIYN", "true") "f_JIYN" rfl
      · exact keys_elim_sub f.ageSeconds (fun s => ("f_TPR", "r" ++ toString s)) "f_TPR"
          (fun _ => rfl)
    exact List.Nodup.sublist hkeys (by decide)
  · intro v
    simp [toLinkedinParams, mem_elim_single, mem_ite_single, eq_comm]
  · simp [toLinkedinParams]
  · intro v
    simp [toLinkedinParams, mem_elim_single, mem_ite_single, eq_comm, and_comm]
  · intro v
    simp [toLinkedinParams, mem_elim_single, mem_ite_single, eq_comm, and_comm]
  · intro v
    simp [toLinkedinParams, mem_elim_single, mem_ite_single, eq_comm, and_comm]
  · intro v
    simp [toLinkedinParams, mem_elim_single, mem_ite_single, eq_comm, and_comm]
  · intro v
    simp [toLinkedinParams, mem_elim_single, mem_ite_single, eq_comm, and_comm]
  · intro kv hkv
    simp only [toLinkedinParams, List.mem_append, mem_elim_single, mem_ite_single,
      List.mem_singleton] at hkv
    rcases hkv with ((((((⟨x, _, rfl⟩ | rfl) | ⟨x, _, rfl⟩) | ⟨x, _, rfl⟩) | ⟨x, _, rfl⟩) |
      ⟨_, rfl⟩) | ⟨x, _, rfl⟩) <;> simp

/-- Witness for C7 (amended) at a populated filter: the age window and the
few-applicants flag serialize to their keys. -/
theorem filter_params_amended_witness :
    ("f_TPR", "r86400") ∈ toLinkedinParams
      { title := some "eng", few_applicants := some true, ageSeconds := some 86400 } ∧
    ("f_JIYN", "true") ∈ toLinkedinParams
      { title := some "eng", few_applicants := some true, ageSeconds := some 86400 } := by
  have h := filter_params_amended
    { title := some "eng", few_applicants := some true, ageSeconds := some 86400 }
  exact ⟨(h.2.2.2.2.2.2.2.1 "r86400").mpr ⟨86400, rfl, by decide⟩,
    (h.2.2.2.2.2.2.1 "true").mpr ⟨rfl, rfl⟩⟩

lemma getLast?_cons_or {α : Type} (a : α) (l : List α) :
    (a :: l).getLast? = (l.getLast?).or (some a) := by
  induction l generalizing a with
  | nil => rfl
  | cons b l ih =>
    rw [List.getLast?_cons_cons, ih b]
    cases h : l.getLast? <;> simp [Option.or]

lemma criteriaFold_aux (entries : List (String × String)) :
    ∀ a b, List.foldl criteriaStep (a, b) entries =
      (((entries.filter (fun e => e.1 == "Employment type")).getLast?).elim a
         (fun e => STR_TO_EMPLOYMENT_TYPE_MAP.lookup e.2),
       ((entries.filter (fun e => e.1 == "Seniority level")).getLast?).elim b
         (fun e => STR_TO_EXPERIENCE_LEVEL_MAP.lookup e.2)) := by
  induction entries with
  | nil => intro a b; rfl
  | cons e rest ih =>
    intro a b
    rw [List.foldl_cons]
    by_cases h1 : e.1 = "Employment type"
    · have h2 : ¬e.1 = "Seniority level" := by rw [h1]; decide
      have hstep : criteriaStep (a, b) e = (STR_TO_EMPLOYMENT_TYPE_MAP.lookup e.2, b) := by
        simp [criteriaStep, h1, h2]
      rw [hstep, ih]
      rw [List.filter_cons_of_pos (by simp [h1]), List.filter_cons_of_neg (by simp [h2])]
      rw [getLast?_cons_or]
      cases hl : (rest.filter (fun e => e.1 == "Employment type")).getLast? <;>
        simp [Option.or]
    · by_cases h3 : e.1 = "Seniority level"
      · have hstep : criteriaStep (a, b) e = (a, STR_TO_EXPERIENCE_LEVEL_MAP.lookup e.2) := by
          simp [criteriaStep, h1, h3]
        rw [hstep, ih]
        rw [List.filter_cons_of_neg (by simp [h1]), List.filter_cons_of_pos (by simp [h3])]
        rw [getLast?_cons_or]
        cases hl : (rest.filter (fun e => e.1 == "Seniority level")).getLast? <;>
          simp [Option.or]
      · have hstep : criteriaStep (a, b) e = (a, b) := by
          simp [criteriaStep, h1, h3]
        rw [hstep, ih]
        rw [List.filter_cons_of_neg (by simp [h1]), List.filter_cons_of_neg (by simp [h3])]

lemma criteriaFold_eq (entries : List (String × String)) :
    criteriaFold entries = (lastEmploymentType entries, lastExperienceLevel entries) := by
  rw [criteriaFold, criteriaFold_aux]
  unfold lastEmploymentType lastExperienceLevel
  cases h1 : (entries.filter (fun e => e.1 == "Employment type")).getLast? <;>
    cases h2 : (entries.filter (fun e => e.1 == "Seniority level")).getLast? <;>
    simp [Option.elim, Option.bind]

/-- C8 counterexample: a body whose criteria are an `"Employment type"`
entry with a mapped value followed by another `"Employment type"` entry
with an unmapped value fails extraction, although a criteria entry
yielding a mapped employment type is present. -/
theorem parse_detail_criteria_cex :
    ("Employment type", "Full-time") ∈
      [("Employment type", "Full-time"), ("Employment type", "Unknown")] ∧
    STR_TO_EMPLOYMENT_TYPE_MAP.lookup "Full-time" = some .FULL_TIME ∧
    parseDetailCriteria [("Employment type", "Full-time"), ("Employment type", "Unknown")] =
      .error "Could not parse employment type" := by decide

/-- C8 amended: unmapped experience-level values are tolerated (the field
is just left unset and never causes a failure), while employment type is
mandatory with last-entry-wins semantics: extraction succeeds with the
mapped value of the LAST `"Employment type"` entry when that value maps,
and fails with the extraction error when there is no such entry or the
last one is unmapped. -/
theorem parse_detail_criteria_amended (entries : List (String × String)) :
    parseDetailCriteria entries =
      (match lastEmploymentType entries with
       | none => .error "Could not parse employment type"
       | some et => .ok (et, lastExperienceLevel entries)) := by
  unfold parseDetailCriteria
  rw [criteriaFold_eq]
  cases lastEmploymentType entries <;> rfl

/-- C10: within the criteria loop the last entry of a given key alone
determines the resulting field (later entries overwrite earlier ones);
in particular a mapped `"Employment type"` entry followed by an unmapped
one leaves the employment type unset, so extraction fails even though a
matching entry was present earlier. -/
theorem detail_criteria_last_wins (entries : List (String × String)) :
    (criteriaFold entries).1 = lastEmploymentType entries ∧
    (criteriaFold entries).2 = lastExperienceLevel entries ∧
    parseDetailCriteria [("Employment type", "Full-time"), ("Employment type", "Unknown")] =
      .error "Could not parse employment type" :=
  ⟨by rw [criteriaFold_eq], by rw [criteriaFold_eq], by decide⟩

lemma searchJobId_cons_neg {c : Char} {rest : List Char} (hc : c.isDigit = false) :
    searchJobId (c :: rest) = searchJobId rest := by
  simp only [searchJobId, hc]
  simp

lemma searchJobId_cons_pos_stop {c : Char} {rest : List Char} (hc : c.isDigit = true)
    (hf : followerOk (List.drop ((c :: rest).takeWhile Char.isDigit).length (c :: rest)) =
      true) :
    searchJobId (c :: rest) = some ((c :: rest).takeWhile Char.isDigit) := by
  simp only [searchJobId, hc, hf]
  simp

lemma searchJobId_cons_pos_cont {c : Char} {rest : List Char} (hc : c.isDigit = true)
    (hf : followerOk (List.drop ((c :: rest).takeWhile Char.isDigit).length (c :: rest)) =
      false) :
    searchJobId (c :: rest) = searchJobId rest := by
  simp only [searchJobId, hc, hf]
  simp

lemma takeWhile_append_all {P : Char → Bool} {u : List Char} (h : ∀ x ∈ u, P x = true)
    (v : List Char) : (u ++ v).takeWhile P = u ++ v.takeWhile P := by
  induction u with
  | nil => simp
  | cons a u ih =>
    rw [List.cons_append, List.takeWhile_cons_of_pos (h a (by simp)),
      ih (fun x hx => h x (by simp [hx]))]
    rfl

lemma stop_of_cons {P : Char → Bool} {a : Char} {u : List Char} (hpa : P a = true)
    (h : ∃ x ∈ a :: u, P x = false) : ∃ x ∈ u, P x = false := by
  obtain ⟨x, hx, hpx⟩ := h
  rcases List.mem_cons.mp hx with rfl | hx2
  · rw [hpa] at hpx; cases hpx
  · exact ⟨x, hx2, hpx⟩

lemma takeWhile_append_stop {P : Char → Bool} {u : List Char}
    (h : ∃ x ∈ u, P x = false) (v : List Char) :
    (u ++ v).takeWhile P = u.takeWhile P := by
  induction u with
  | nil => obtain ⟨x, hx, _⟩ := h; cases hx
  | cons a u ih =>
    rcases hpa : P a with _ | _
    · rw [List.cons_append, List.takeWhile_cons_of_neg (by simp [hpa]),
        List.takeWhile_cons_of_neg (by simp [hpa])]
    · rw [List.cons_append, List.takeWhile_cons_of_pos hpa, List.takeWhile_cons_of_pos hpa,
        ih (stop_of_cons hpa h)]

lemma dropWhile_append_stop {P : Char → Bool} {u : List Char}
    (h : ∃ x ∈ u, P x = false) (v : List Char) :
    (u ++ v).dropWhile P = u.dropWhile P ++ v := by
  induction u with
  | nil => obtain ⟨x, hx, _⟩ := h; cases hx
  | cons a u ih =>
    rcases hpa : P a with _ | _
    · rw [List.cons_append, List.dropWhile_cons_of_neg (by simp [hpa]),
        List.dropWhile_cons_of_neg (by simp [hpa]), List.cons_append]
    · rw [List.cons_append, List.dropWhile_cons_of_pos hpa, List.dropWhile_cons_of_pos hpa,
        ih (stop_of_cons hpa h)]

lemma drop_takeWhile_eq_dropWhile (P : Char → Bool) (l : List Char) :
    l.drop (l.takeWhile P).length = l.dropWhile P := by
  induction l with
  | nil => rfl
  | cons a l ih =>
    rcases hpa : P a with _ | _
    · rw [List.takeWhile_cons_of_neg (by simp [hpa]),
        List.dropWhile_cons_of_neg (by simp [hpa])]
      rfl
    · rw [List.takeWhile_cons_of_pos hpa, List.dropWhile_cons_of_pos hpa]
      simp only [List.length_cons, List.drop_succ_cons]
      exact ih

lemma dropWhile_ne_nil {P : Char → Bool} {u : List Char} (h : ∃ x ∈ u, P x = false) :
    u.dropWhile P ≠ [] := by
  intro hnil
  obtain ⟨x, hx, hpx⟩ := h
  rw [List.dropWhile_eq_nil_iff.mp hnil x hx] at hpx
  cases hpx

lemma head_dropWhile_false (P : Char → Bool) (u : List Char) {c : Char} {r : List Char}
    (h : u.dropWhile P = c :: r) : P c = false := by
  induction u with
  | nil => cases h
  | cons a u ih =>
    rcases hpa : P a with _ | _
    · rw [List.dropWhile_cons_of_neg (by simp [hpa])] at h
      cases h
      exact hpa
    · rw [List.dropWhile_cons_of_pos hpa] at h
      exact ih h

lemma searchJobId_none_of_no_digit {l : List Char} (h : ∀ c ∈ l, c.isDigit = false) :
    searchJobId l = none := by
  induction l with
  | nil => rfl
  | cons c rest ih =>
    rw [searchJobId_cons_neg (h c (by simp))]
    exact ih (fun x hx => h x (by simp [hx]))

/-- The scan of `re.search` over `p ++ ds ++ t` reaches the digit suffix
`ds` and captures exactly it, provided `p` ends in a non-digit (so `ds`
is a maximal run), no digit inside `p` is immediately followed by `/` or
`?` (so no earlier position matches), and `ds` is followed by nothing, a
`/`, or a `?`. -/
lemma searchJobId_reaches_suffix :
    ∀ (p ds t : List Char), ds ≠ [] → (∀ c ∈ ds, c.isDigit = true) →
    (∀ c, p.getLast? = some c → c.isDigit = false) →
    (∀ (a : List Char) (d c : Char) (t2 : List Char),
      p = a ++ d :: c :: t2 → d.isDigit = true → ¬(c = '/' ∨ c = '?')) →
    (t = [] ∨ t.head? = some '/' ∨ t.head? = some '?') →
    searchJobId (p ++ ds ++ t) = some ds := by
  intro p
  induction p with
  | nil =>
    intro ds t hne hds _ _ ht
    obtain ⟨d, ds2, rfl⟩ : ∃ d ds2, ds = d :: ds2 := by
      cases ds with
      | nil => exact absurd rfl hne
      | cons d ds2 => exact ⟨d, ds2, rfl⟩
    have hd : d.isDigit = true := hds d (by simp)
    have htwt : t.takeWhile Char.isDigit = [] := by
      rcases ht with rfl | hh | hh
      · rfl
      · cases t with
        | nil => rfl
        | cons x r =>
          simp only [List.head?_cons, Option.some.injEq] at hh
          subst hh
          exact List.takeWhile_cons_of_neg (by decide)
      · cases t with
        | nil => rfl
        | cons x r =>
          simp only [List.head?_cons, Option.some.injEq] at hh
          subst hh
          exact List.takeWhile_cons_of_neg (by decide)
    have htw : ((d :: ds2) ++ t).takeWhile Char.isDigit = d :: ds2 := by
      rw [takeWhile_append_all hds t, htwt, List.append_nil]
    have hfol : followerOk (List.drop (((d :: ds2) ++ t).takeWhile Char.isDigit).length
        ((d :: ds2) ++ t)) = true := by
      rw [htw, List.drop_left]
      rcases ht with rfl | hh | hh
      · rfl
      · cases t with
        | nil => rfl
        | cons x r =>
          simp only [List.head?_cons, Option.some.injEq] at hh
          subst hh
          rfl
      · cases t with
        | nil => rfl
        | cons x r =>
          simp only [List.head?_cons, Option.some.injEq] at hh
          subst hh
          rfl
    rw [List.cons_append] at htw hfol
    show searchJobId (d :: (ds2 ++ t)) = some (d :: ds2)
    rw [searchJobId_cons_pos_stop hd hfol, htw]
  | cons c p2 ih =>
    intro ds t hne hds hlast hnoqual ht
    have hlast2 : ∀ x, p2.getLast? = some x → x.isDigit = false := by
      intro x hx
      cases p2 with
      | nil => cases hx
      | cons b p3 => exact hlast x (by rw [List.getLast?_cons_cons]; exact hx)
    have hnoqual2 : ∀ (a : List Char) (d cc : Char) (t2 : List Char),
        p2 = a ++ d :: cc :: t2 → d.isDigit = true → ¬(cc = '/' ∨ cc = '?') := by
      intro a d cc t2 happ hd
      exact hnoqual (c :: a) d cc t2 (by rw [happ]; rfl) hd
    rcases hc : c.isDigit with _ | _
    · show searchJobId (c :: (p2 ++ ds ++ t)) = some ds
      rw [searchJobId_cons_neg hc]
      exact ih ds t hne hds hlast2 hnoqual2 ht
    · have hpne : (c :: p2) ≠ [] := List.cons_ne_nil c p2
      have hlastmem : ∃ x ∈ (c :: p2), x.isDigit = false :=
        ⟨(c :: p2).getLast hpne, List.getLast_mem hpne,
          hlast _ (List.getLast?_eq_getLast _ hpne)⟩
      have htw : ((c :: p2) ++ (ds ++ t)).takeWhile Char.isDigit
          = (c :: p2).takeWhile Char.isDigit := takeWhile_append_stop hlastmem _
      have hdw : ((c :: p2) ++ (ds ++ t)).dropWhile Char.isDigit
          = (c :: p2).dropWhile Char.isDigit ++ (ds ++ t) := dropWhile_append_stop hlastmem _
      obtain ⟨f, restp, hf⟩ : ∃ f restp, (c :: p2).dropWhile Char.isDigit = f :: restp := by
        cases hdd : (c :: p2).dropWhile Char.isDigit with
        | nil => exact absurd hdd (dropWhile_ne_nil hlastmem)
        | cons f restp => exact ⟨f, restp, rfl⟩
      have hdec : (c :: p2) = (c :: p2).takeWhile Char.isDigit ++ f :: restp := by
        conv_lhs => rw [← List.takeWhile_append_dropWhile (p := Char.isDigit) (l := c :: p2)]
        rw [hf]
      have htwne : (c :: p2).takeWhile Char.isDigit = c :: p2.takeWhile Char.isDigit :=
        List.takeWhile_cons_of_pos hc
      obtain ⟨q, dl, hql⟩ : ∃ q dl, (c :: p2).takeWhile Char.isDigit = q ++ [dl] := by
        rcases List.eq_nil_or_concat ((c :: p2).takeWhile Char.isDigit) with hnil | ⟨q, dl, hq⟩
        · rw [htwne] at hnil; cases hnil
        · exact ⟨q, dl, by rw [hq, List.concat_eq_append]⟩
      have hdl : dl.isDigit = true := by
        apply List.mem_takeWhile_imp (l := c :: p2) (p := Char.isDigit)
        rw [hql]
        simp
      have hnq : ¬(f = '/' ∨ f = '?') :=
        hnoqual q dl f restp (by rw [hdec, hql, List.append_assoc]; rfl) hdl
      have hdrop : List.drop (((c :: p2) ++ (ds ++ t)).takeWhile Char.isDigit).length
          ((c :: p2) ++ (ds ++ t)) = f :: (restp ++ (ds ++ t)) := by
        rw [htw]
        have := drop_takeWhile_eq_dropWhile Char.isDigit ((c :: p2) ++ (ds ++ t))
        rw [htw] at this
        rw [this, hdw, hf]
        rfl
      have hfol : followerOk (f :: (restp ++ (ds ++ t))) = false := by
        have h1 : (f == '/') = false := by
          simp only [beq_eq_false_iff_ne, ne_eq]
          exact fun hh => hnq (Or.inl hh)
        have h2 : (f == '?') = false := by
          simp only [beq_eq_false_iff_ne, ne_eq]
          exact fun hh => hnq (Or.inr hh)
        have hemp : (restp ++ (ds ++ t)).isEmpty = false := by
          cases ds with
          | nil => exact absurd rfl hne
          | cons d ds2 =>
            cases restp <;> rfl
        simp [followerOk, h1, h2, hemp]
      show searchJobId (c :: (p2 ++ ds ++ t)) = some ds
      have hconv : List.drop ((c :: (p2 ++ ds ++ t)).takeWhile Char.isDigit).length
          (c :: (p2 ++ ds ++ t)) = f :: (restp ++ (ds ++ t)) := by
        rw [show c :: (p2 ++ ds ++ t) = (c :: p2) ++ (ds ++ t) by simp]
        exact hdrop
      rw [searchJobId_cons_pos_cont hc (by rw [hconv]; exact hfol)]
      exact ih ds t hne hds hlast2 hnoqual2 ht

/-- A url prefix containing no digit at all satisfies the no-earlier-match
condition of `searchJobId_reaches_suffix`. -/
lemma noqual_of_no_digit {p : List Char} (h : ∀ c ∈ p, c.isDigit = false) :
    ∀ (a : List Char) (d c : Char) (t2 : List Char),
      p = a ++ d :: c :: t2 → d.isDigit = true → ¬(c = '/' ∨ c = '?') := by
  intro a d c t2 happ hd
  exfalso
  have hmem : d ∈ p := by rw [happ]; simp
  rw [h d hmem] at hd
  cases hd

/-- C9 counterexample: the url `"a1/b2"` ends in the numeric suffix
`"2"`, yet the derived id is `"1"`: `re.search` returns the leftmost
match of the pattern (`"1"` is followed by `/`), not the ending suffix. -/
theorem job_id_cex :
    ({url := "a1/b2", title := "t", location := "l", company_title := "c",
      company_url := "u", posted_at := ⟨2024, 1, 1⟩} : Job).id = .ok "1" ∧
    "a1/b2".data = "a1/b".data ++ "2".data ∧
    (∀ c ∈ "2".data, c.isDigit = true) ∧
    ("1" : String) ≠ "2" := by
  refine ⟨by decide, by decide, by decide, by decide⟩

/-- C9 amended: the derived id is produced by the leftmost match of the
numeric pattern: whenever the url splits as `p ++ ds ++ t` with `ds` a
non-empty digit run, `p` not ending in a digit, no digit inside `p`
immediately followed by `/` or `?` (so the suffix run is the leftmost
qualifying match — this is the condition the counterexample forces), and
`t` empty or starting with `/` or `?`, the id is exactly `ds`; and
whenever the pattern finds no match, reading `id` fails with the
`ValueError` naming the url, never a default value. -/
theorem job_id_amended (j : Job) :
    (∀ p ds t : List Char,
      ds ≠ [] → (∀ c ∈ ds, c.isDigit = true) →
      (∀ c, p.getLast? = some c → c.isDigit = false) →
      (∀ (a : List Char) (d c : Char) (t2 : List Char),
        p = a ++ d :: c :: t2 → d.isDigit = true → ¬(c = '/' ∨ c = '?')) →
      (t = [] ∨ t.head? = some '/' ∨ t.head? = some '?') →
      j.url.data = p ++ ds ++ t →
      j.id = .ok (String.mk ds)) ∧
    (searchJobId j.url.data = none →
      j.id = .error ("Could not parse job ID from URL: " ++ j.url)) := by
  constructor
  · intro p ds t h1 h2 h3 h4 h5 hurl
    unfold Job.id
    rw [hurl, searchJobId_reaches_suffix p ds t h1 h2 h3 h4 h5]
  · intro h
    unfold Job.id
    rw [h]

/-- Witness for C9 (amended): a url whose prefix holds no digit yields
exactly its numeric suffix as id. -/
theorem job_id_amended_witness :
    ({url := "job-at-acme-4011384939", title := "t", location := "l", company_title := "c",
      company_url := "u", posted_at := ⟨2024, 1, 1⟩} : Job).id = .ok "4011384939" := by
  have hnod : ∀ c ∈ "job-at-acme-".data, c.isDigit = false := by decide
  have h := (job_id_amended
    { url := "job-at-acme-4011384939", title := "t", location := "l", company_title := "c",
      company_url := "u", posted_at := ⟨2024, 1, 1⟩ }).1
    "job-at-acme-".data "4011384939".data []
    (by decide)
    (by decide)
    (by
      intro c hc
      have he : ("job-at-acme-".data).getLast? = some '-' := by decide
      rw [he] at hc
      cases hc
      decide)
    (noqual_of_no_digit hnod)
    (Or.inl rfl)
    (by decide)
  refine h.trans ?_
  decide
